import Mathlib

/-!
Verification of the homehttp resilience layer (rate limiting, adaptive backoff,
retry loop) of github.com/vmyroslav/home-lib.

Shallow embedding conventions:
* wall-clock time and durations are rationals, measured in seconds;
* a Go `context.Context` is modelled by its cancellation instant
  (`Option ℚ`; `none` means the context never ends);
* a header value is modelled by the outcome of the parses the code attempts
  (`strconv.Atoi` / `strconv.ParseInt`, then `http.ParseTime` for Retry-After);
* mutable receivers become explicit state passing: a Go method `m` on type `T`
  becomes `T.m : ... → T → result × T`;
* the `select` between a timer and `ctx.Done()` is resolved deterministically:
  the context branch wins iff it is ready strictly before the timer fires
  (Go picks randomly on ties).
-/

/-- Outcome of attempting to parse a rate-limit header string. `asInt n` means
`strconv.Atoi`/`ParseInt` succeeds with value `n`; `asDate t` means the integer
parse fails but `http.ParseTime` succeeds with instant `t` (only Retry-After is
ever parsed as a date); `malformed` means no parse the code attempts succeeds. -/
inductive HeaderVal where
  | asInt : ℤ → HeaderVal
  | asDate : ℚ → HeaderVal
  | malformed : HeaderVal
deriving DecidableEq, Repr

/-- The rate-limit related headers of an HTTP response. `none` models an absent
header (`resp.Header.Get` returning the empty string). -/
structure Headers where
  retryAfter : Option HeaderVal
  xRateLimitLimit : Option HeaderVal
  xRateLimitRemaining : Option HeaderVal
  xRateLimitReset : Option HeaderVal
  rateLimitLimit : Option HeaderVal
  rateLimitRemaining : Option HeaderVal
  rateLimitReset : Option HeaderVal
deriving DecidableEq, Repr

/-- Headers with every rate-limit header absent. -/
def Headers.empty : Headers :=
  ⟨none, none, none, none, none, none, none⟩

/-- Mutable state of `AdaptiveRateLimiter` (the wrapped base limiter is passed
separately, since it is an interface value). -/
structure AdaptiveRateLimiter where
  backoffUntil : ℚ
  lastObservedLimit : ℤ
deriving DecidableEq, Repr

/-- `NewAdaptiveRateLimiter`: zero-valued backoff (no active backoff) and no
observed limit. The Go zero `time.Time` is far in the past; we model it as 0
and only consider nonnegative clocks. -/
def NewAdaptiveRateLimiter : AdaptiveRateLimiter :=
  ⟨0, 0⟩

/-- `handle429Response`: on a 429, set `backoffUntil` from the first matching
header rule — Retry-After as integer seconds, Retry-After as HTTP date,
X-RateLimit-Reset as Unix timestamp, RateLimit-Reset as Unix timestamp,
else `now + 60s`. -/
def AdaptiveRateLimiter.handle429Response (a : AdaptiveRateLimiter) (now : ℚ)
    (h : Headers) : AdaptiveRateLimiter :=
  match h.retryAfter with
  | some (.asInt seconds) => { a with backoffUntil := now + (seconds : ℚ) }
  | some (.asDate t) => { a with backoffUntil := t }
  | _ =>
    match h.xRateLimitReset with
    | some (.asInt ts) => { a with backoffUntil := (ts : ℚ) }
    | _ =>
      match h.rateLimitReset with
      | some (.asInt ts) => { a with backoffUntil := (ts : ℚ) }
      | _ => { a with backoffUntil := now + 60 }

/-- `checkRemainingAndSetBackoff`: if X-RateLimit-Remaining parses to 0 and
X-RateLimit-Reset parses as an integer, overwrite `backoffUntil` with the
reset instant. -/
def AdaptiveRateLimiter.checkRemainingAndSetBackoff (a : AdaptiveRateLimiter)
    (h : Headers) : AdaptiveRateLimiter :=
  match h.xRateLimitRemaining with
  | some (.asInt r) =>
    if r = 0 then
      match h.xRateLimitReset with
      | some (.asInt ts) => { a with backoffUntil := (ts : ℚ) }
      | _ => a
    else a
  | _ => a

/-- `parseRateLimitHeaders`: update `lastObservedLimit` from X-RateLimit-Limit,
then from RateLimit-Limit, then run the remaining-zero check. -/
def AdaptiveRateLimiter.parseRateLimitHeaders (a : AdaptiveRateLimiter)
    (h : Headers) : AdaptiveRateLimiter :=
  let a1 :=
    match h.xRateLimitLimit with
    | some (.asInt l) => { a with lastObservedLimit := l }
    | _ => a
  let a2 :=
    match h.rateLimitLimit with
    | some (.asInt l) => { a1 with lastObservedLimit := l }
    | _ => a1
  a2.checkRemainingAndSetBackoff h

/-- `ObserveResponse` for a non-nil response with status `status` and headers
`h` observed at time `now` (`ObserveResponse` with a nil response is a no-op
and is not modelled). -/
def AdaptiveRateLimiter.ObserveResponse (a : AdaptiveRateLimiter) (now : ℚ)
    (status : ℕ) (h : Headers) : AdaptiveRateLimiter :=
  let a1 := if status = 429 then a.handle429Response now h else a
  a1.parseRateLimitHeaders h

/-- Result of a blocking `Wait` call. -/
inductive WaitOutcome where
  | ok : WaitOutcome
  | ctxErr : WaitOutcome
deriving DecidableEq, Repr

/-- Whether a context with cancellation instant `cancelAt` is done at time `t`. -/
def ctxDoneAt (cancelAt : Option ℚ) (t : ℚ) : Bool :=
  match cancelAt with
  | some d => decide (d ≤ t)
  | none => false

/-- `AdaptiveRateLimiter.Allow`: deny while in adaptive backoff, otherwise
delegate to the `Allow` of the base limiter (the base limiter is an arbitrary
state machine `baseAllow` over state `σ`). -/
def AdaptiveRateLimiter.Allow {σ : Type} (a : AdaptiveRateLimiter)
    (baseAllow : ℚ → σ → Bool × σ) (now : ℚ) (bs : σ) : Bool × σ :=
  if now < a.backoffUntil then (false, bs) else baseAllow now bs

/-- `AdaptiveRateLimiter.Wait`: while in adaptive backoff, race the backoff
timer against the context, returning the context error if the context ends
strictly first; otherwise fall through to the `Wait` of the base limiter once the
backoff deadline is reached. `baseWait now bs` returns the outcome, the time
at which the call returns, and the updated base state. -/
def AdaptiveRateLimiter.Wait {σ : Type} (a : AdaptiveRateLimiter)
    (baseWait : ℚ → σ → WaitOutcome × ℚ × σ) (cancelAt : Option ℚ) (now : ℚ)
    (bs : σ) : WaitOutcome × ℚ × σ :=
  if now < a.backoffUntil then
    match cancelAt with
    | some d =>
      if d < a.backoffUntil then (.ctxErr, max now d, bs)
      else baseWait a.backoffUntil bs
    | none => baseWait a.backoffUntil bs
  else baseWait now bs

/-- Modelled from the spec: state of the token-bucket limiter. The Go
`TokenBucketRateLimiter` delegates to `golang.org/x/time/rate.Limiter`, a
dependency whose source is not part of this repository; §4.3 of the spec gives
its refill model — tokens accumulate at `rate` per second since the last
refill, capped at `burst`, and `Allow`/`Wait` spend one whole token. -/
structure TokenBucketRateLimiter where
  rate : ℚ
  burst : ℕ
  tokens : ℚ
  lastRefill : ℚ
deriving DecidableEq, Repr

/-- `NewTokenBucketRateLimiter`: a fresh bucket starts full. -/
def NewTokenBucketRateLimiter (ratePerSecond : ℚ) (burst : ℕ) (now : ℚ) :
    TokenBucketRateLimiter :=
  ⟨ratePerSecond, burst, (burst : ℚ), now⟩

/-- Modelled from the spec: advance the bucket to time `now`, adding
`elapsed × rate` tokens capped at `burst`. -/
def TokenBucketRateLimiter.refill (s : TokenBucketRateLimiter) (now : ℚ) :
    TokenBucketRateLimiter :=
  { s with tokens := min (s.burst : ℚ) (s.tokens + (now - s.lastRefill) * s.rate),
           lastRefill := now }

/-- Modelled from the spec: `Allow` refills, then removes one token if at least
one is available; it never consumes a fractional token and ignores the
context entirely (the Go method discards its context argument). -/
def TokenBucketRateLimiter.Allow (s : TokenBucketRateLimiter) (now : ℚ) :
    Bool × TokenBucketRateLimiter :=
  let s1 := s.refill now
  if 1 ≤ s1.tokens then (true, { s1 with tokens := s1.tokens - 1 })
  else (false, s1)

/-- Modelled from the spec: `Wait` first treats an already-canceled context as
denied (returning the context error without consuming a token), then refills
and consumes immediately if a token is available, otherwise sleeps until one
token has accumulated, racing the context, and consumes it on waking. -/
def TokenBucketRateLimiter.Wait (s : TokenBucketRateLimiter)
    (cancelAt : Option ℚ) (now : ℚ) : WaitOutcome × ℚ × TokenBucketRateLimiter :=
  if ctxDoneAt cancelAt now then (.ctxErr, now, s)
  else
    let s1 := s.refill now
    if 1 ≤ s1.tokens then (.ok, now, { s1 with tokens := s1.tokens - 1 })
    else
      let tAvail := now + (1 - s1.tokens) / s1.rate
      match cancelAt with
      | some d =>
        if d < tAvail then (.ctxErr, max now d, s1)
        else
          let s2 := s1.refill tAvail
          (.ok, tAvail, { s2 with tokens := s2.tokens - 1 })
      | none =>
        let s2 := s1.refill tAvail
        (.ok, tAvail, { s2 with tokens := s2.tokens - 1 })

/-- State of `FixedWindowRateLimiter` (src/homehttp/ratelimit.go). The Go
`limit` field is an `int`; the constructor clamps negatives to 0 but the field
itself is an integer, so it is modelled as `ℤ`. `count` only ever starts at 0
and increments, so it is a `ℕ`. -/
structure FixedWindowRateLimiter where
  limit : ℤ
  window : ℚ
  windowStart : ℚ
  count : ℕ
deriving DecidableEq, Repr

/-- `NewFixedWindowRateLimiter`: clamp a negative limit to 0 and a nonpositive
window to one nanosecond; the window starts at construction time `now`. -/
def NewFixedWindowRateLimiter (limit : ℤ) (window : ℚ) (now : ℚ) :
    FixedWindowRateLimiter :=
  { limit := if limit < 0 then 0 else limit
    window := if window ≤ 0 then 1 / 1000000000 else window
    windowStart := now
    count := 0 }

/-- `maybeResetWindow`: reset the count and restart the window at `now` iff at
least a full window has elapsed since `windowStart`. -/
def FixedWindowRateLimiter.maybeResetWindow (s : FixedWindowRateLimiter)
    (now : ℚ) : FixedWindowRateLimiter :=
  if now - s.windowStart ≥ s.window then { s with count := 0, windowStart := now }
  else s

/-- `FixedWindowRateLimiter.Allow`: reset if expired, then admit (incrementing
the count) iff `count < limit`. The context argument is discarded in Go. -/
def FixedWindowRateLimiter.Allow (s : FixedWindowRateLimiter) (now : ℚ) :
    Bool × FixedWindowRateLimiter :=
  let s1 := s.maybeResetWindow now
  if (s1.count : ℤ) < s1.limit then (true, { s1 with count := s1.count + 1 })
  else (false, s1)

/-- `FixedWindowRateLimiter.Wait`: loop — reset if expired, admit if there is
room (checked before the context!), else sleep `window − elapsed` (floored at
zero) racing the context. The `fuel` argument bounds the number of loop
iterations; `none` means the loop has not returned within `fuel` iterations.
The context branch of the `select` fires iff the context ends no later than
the timer. -/
def FixedWindowRateLimiter.Wait (cancelAt : Option ℚ) :
    ℕ → ℚ → FixedWindowRateLimiter →
    Option (WaitOutcome × ℚ × FixedWindowRateLimiter)
  | 0, _, _ => none
  | fuel + 1, now, s =>
    let s1 := s.maybeResetWindow now
    if (s1.count : ℤ) < s1.limit then
      some (.ok, now, { s1 with count := s1.count + 1 })
    else
      let waitTime := max 0 (s1.window - (now - s1.windowStart))
      match cancelAt with
      | some d =>
        if d ≤ now + waitTime then some (.ctxErr, max now d, s1)
        else FixedWindowRateLimiter.Wait cancelAt fuel (now + waitTime) s1
      | none => FixedWindowRateLimiter.Wait cancelAt fuel (now + waitTime) s1

/-- `RateLimitBehavior` (src/homehttp/ratelimit_scope.go / part_003). -/
inductive RateLimitBehavior where
  | wait : RateLimitBehavior
  | error : RateLimitBehavior
deriving DecidableEq, Repr

/-- Outcome of `rateLimitStrategy.Apply`. -/
inductive ApplyOutcome where
  | ok : ApplyOutcome
  | rateLimitExceeded : ApplyOutcome
  | ctxError : ApplyOutcome
deriving DecidableEq, Repr

/-- `rateLimitStrategy.Apply` for the configuration built by
`buildRateLimitStrategy` with adaptive enabled and client scope: there the
scoped limiter field `clientLimit` is the very same `AdaptiveRateLimiter` stored
in the `adaptive` field of the strategy, so `s.limiter.Allow ctx host` is a second
call to `AdaptiveRateLimiter.Allow`. The base limiter is an arbitrary state
machine `(baseAllow, baseWait)` over state `σ`. Mirrors part_003: the adaptive
`Allow` probe runs before the behavior switch; Wait behavior then calls
`s.adaptive.Wait`; Error behavior fails fast on a denied probe and otherwise
probes the scoped (= same adaptive) limiter. -/
def rateLimitStrategy.ApplyAdaptiveClient {σ : Type}
    (baseAllow : ℚ → σ → Bool × σ) (baseWait : ℚ → σ → WaitOutcome × ℚ × σ)
    (behavior : RateLimitBehavior) (a : AdaptiveRateLimiter)
    (cancelAt : Option ℚ) (now : ℚ) (bs : σ) : ApplyOutcome × ℚ × σ :=
  let probe := a.Allow baseAllow now bs
  match behavior with
  | .wait =>
    match a.Wait baseWait cancelAt now probe.2 with
    | (.ok, t, bs2) => (.ok, t, bs2)
    | (.ctxErr, t, bs2) => (.ctxError, t, bs2)
  | .error =>
    if probe.1 = false then (.rateLimitExceeded, now, probe.2)
    else
      let probe2 := a.Allow baseAllow now probe.2
      if probe2.1 = false then (.rateLimitExceeded, now, probe2.2)
      else (.ok, now, probe2.2)

/-- Look up the cached limiter state for `host` in the per-host map
(`PerHostRateLimiter.limiters`, a `sync.Map` modelled as an association list). -/
def lookupHost {σ : Type} (m : List (String × σ)) (host : String) : Option σ :=
  (m.find? (fun e => e.1 = host)).map (fun e => e.2)

/-- Store limiter state `s` for `host`, replacing an existing entry or
appending a new one. -/
def updateHost {σ : Type} : List (String × σ) → String → σ → List (String × σ)
  | [], host, s => [(host, s)]
  | (h, x) :: rest, host, s =>
    if h = host then (host, s) :: rest else (h, x) :: updateHost rest host s

/-- One operation of `PerHostRateLimiter` against `host`:
`getLimiterForHost` (lazily creating the fresh factory state `σ0` on a
miss) followed by an arbitrary mutation `f` of the limiter of that host — this
covers both `Allow` and `Wait`, whose effects on the limiter differ only in
`f`. -/
def PerHostRateLimiter.step {σ : Type} (σ0 : σ) (f : σ → σ) (host : String)
    (m : List (String × σ)) : List (String × σ) :=
  updateHost m host (f ((lookupHost m host).getD σ0))

/-- A sequence of per-host operations against the same `host`. -/
def PerHostRateLimiter.run {σ : Type} (σ0 : σ) (host : String) :
    List (σ → σ) → List (String × σ) → List (String × σ)
  | [], m => m
  | f :: fs, m => PerHostRateLimiter.run σ0 host fs (PerHostRateLimiter.step σ0 f host m)

/-- `PerHostRateLimiter.Allow`: fetch (or lazily create) the limiter for
`host`, probe it, and keep its updated state. -/
def PerHostRateLimiter.Allow {σ : Type} (allow : ℚ → σ → Bool × σ) (σ0 : σ)
    (now : ℚ) (host : String) (m : List (String × σ)) :
    Bool × List (String × σ) :=
  let s := (lookupHost m host).getD σ0
  let r := allow now s
  (r.1, updateHost m host r.2)

/-- A sequence of `PerHostRateLimiter.Allow` calls for one host at the given
times, collecting the verdicts. -/
def PerHostRateLimiter.AllowSeq {σ : Type} (allow : ℚ → σ → Bool × σ) (σ0 : σ)
    (host : String) : List ℚ → List (String × σ) → List Bool × List (String × σ)
  | [], m => ([], m)
  | t :: ts, m =>
    let r := PerHostRateLimiter.Allow allow σ0 t host m
    let rest := PerHostRateLimiter.AllowSeq allow σ0 host ts r.2
    (r.1 :: rest.1, rest.2)

/-- A sequence of `Allow` calls on one limiter (state type `σ`, probe function
`allow`) at the given times, collecting the verdicts. -/
def RateLimiter.AllowSeq {σ : Type} (allow : ℚ → σ → Bool × σ) :
    List ℚ → σ → List Bool × σ
  | [], s => ([], s)
  | t :: ts, s =>
    let r := allow t s
    let rest := RateLimiter.AllowSeq allow ts r.2
    (r.1 :: rest.1, rest.2)

/-- The fixed-window probe function in the shape `RateLimiter.AllowSeq`
expects. -/
def fwAllow : ℚ → FixedWindowRateLimiter → Bool × FixedWindowRateLimiter :=
  fun t s => s.Allow t

/-- The token-bucket probe function in the shape `RateLimiter.AllowSeq`
expects. -/
def tbAllow : ℚ → TokenBucketRateLimiter → Bool × TokenBucketRateLimiter :=
  fun t s => s.Allow t

/-- Result of one send through the underlying transport: a response with a
status code (`doErr == nil`), or a transport error (`resp == nil`). -/
inductive SendOutcome where
  | resp : ℕ → SendOutcome
  | transportErr : SendOutcome
deriving DecidableEq, Repr

/-- `RetryOn500x` (src/homehttp/retry.go): retry iff the response is non-nil
with status ≥ 500; it ignores the context and the transport error. -/
def RetryOn500x (out : SendOutcome) : Bool :=
  match out with
  | .resp code => decide (500 ≤ code)
  | .transportErr => false

/-- The attempt loop of `Client.DoJSON` (src/homehttp/client.go): send attempt
`i`, classify; stop when the classifier says no, or when the remaining-attempt
budget `maxRetries − i` is exhausted. `send` gives the transport outcome for
each attempt index; backoff sleeping does not affect the returned values and
is elided. Returns (number of sends, last outcome, last shouldRetry).
`remaining` is `maxRetries − i`, the structural recursion measure. -/
def DoJSONLoop (send : ℕ → SendOutcome) (classify : SendOutcome → Bool) :
    ℕ → ℕ → ℕ × SendOutcome × Bool
  | remaining, i =>
    let out := send i
    let shouldRetry := classify out
    if shouldRetry = false then (1, out, false)
    else
      match remaining with
      | 0 => (1, out, true)
      | r + 1 =>
        let rest := DoJSONLoop send classify r (i + 1)
        (rest.1 + 1, rest.2)

/-- Final result of `Client.DoJSON`. -/
inductive DoResult where
  | success : ℕ → DoResult
  | errorResponse : Option ℕ → DoResult
deriving DecidableEq, Repr

/-- `Client.DoJSON`: run the attempt loop from attempt 0 with budget
`maxRetries`; return the response as success iff the last send had no
transport error and was not flagged for retry, else wrap the last response
(if any) in an `ErrorResponse`. Returns the number of sends performed
alongside the result. -/
def DoJSON (send : ℕ → SendOutcome) (classify : SendOutcome → Bool)
    (maxRetries : ℕ) : ℕ × DoResult :=
  let r := DoJSONLoop send classify maxRetries 0
  match r.2.1, r.2.2 with
  | .resp code, false => (r.1, .success code)
  | .resp code, true => (r.1, .errorResponse (some code))
  | .transportErr, _ => (r.1, .errorResponse none)

/-- Following the words of claim C2: the backoff instant chosen by the
first matching rule, in order — Retry-After as integer seconds, Retry-After
as an HTTP date, X-RateLimit-Reset as a Unix timestamp, RateLimit-Reset as a
Unix timestamp, else now + 60 seconds. -/
def claimPriorityBackoff429 (now : ℚ) (h : Headers) : ℚ :=
  match h.retryAfter with
  | some (.asInt seconds) => now + (seconds : ℚ)
  | some (.asDate t) => t
  | _ =>
    match h.xRateLimitReset with
    | some (.asInt ts) => (ts : ℚ)
    | _ =>
      match h.rateLimitReset with
      | some (.asInt ts) => (ts : ℚ)
      | _ => now + 60

/-- The guard of `checkRemainingAndSetBackoff`: the reset instant it writes,
if X-RateLimit-Remaining parses to 0 and X-RateLimit-Reset parses as an
integer, else `none`. -/
def exhaustionOverwrite (h : Headers) : Option ℚ :=
  match h.xRateLimitRemaining with
  | some (.asInt r) =>
    if r = 0 then
      match h.xRateLimitReset with
      | some (.asInt ts) => some (ts : ℚ)
      | _ => none
    else none
  | _ => none

theorem checkRemaining_backoff (a : AdaptiveRateLimiter) (h : Headers) :
    (a.checkRemainingAndSetBackoff h).backoffUntil
      = (exhaustionOverwrite h).getD a.backoffUntil := by
  unfold AdaptiveRateLimiter.checkRemainingAndSetBackoff exhaustionOverwrite
  rcases h.xRateLimitRemaining with _ | v
  · simp
  · rcases v with r | t | _
    · by_cases hr : r = 0
      · rcases h.xRateLimitReset with _ | w
        · simp [hr]
        · rcases w with ts | t2 | _ <;> simp [hr]
      · simp [hr]
    · simp
    · simp

theorem parseRateLimitHeaders_backoff (a : AdaptiveRateLimiter) (h : Headers) :
    (a.parseRateLimitHeaders h).backoffUntil
      = (exhaustionOverwrite h).getD a.backoffUntil := by
  unfold AdaptiveRateLimiter.parseRateLimitHeaders
  rw [checkRemaining_backoff]
  congr 1
  rcases h.xRateLimitLimit with _ | v
  · rcases h.rateLimitLimit with _ | w
    · simp
    · rcases w with l | t | _ <;> simp
  · rcases v with l | t | _ <;>
      (rcases h.rateLimitLimit with _ | w
       · simp
       · rcases w with l2 | t2 | _ <;> simp)

theorem handle429_backoff (a : AdaptiveRateLimiter) (now : ℚ) (h : Headers) :
    (a.handle429Response now h).backoffUntil = claimPriorityBackoff429 now h := by
  unfold AdaptiveRateLimiter.handle429Response claimPriorityBackoff429
  rcases h.retryAfter with _ | v
  · rcases h.xRateLimitReset with _ | w
    · rcases h.rateLimitReset with _ | u
      · simp
      · rcases u with ts | t2 | _ <;> simp
    · rcases w with ts | t2 | _
      · simp
      · rcases h.rateLimitReset with _ | u
        · simp
        · rcases u with ts | t2 | _ <;> simp
      · rcases h.rateLimitReset with _ | u
        · simp
        · rcases u with ts | t2 | _ <;> simp
  · rcases v with r | t | _
    · simp
    · simp
    · rcases h.xRateLimitReset with _ | w
      · rcases h.rateLimitReset with _ | u
        · simp
        · rcases u with ts | t2 | _ <;> simp
      · rcases w with ts | t2 | _
        · simp
        · rcases h.rateLimitReset with _ | u
          · simp
          · rcases u with ts | t2 | _ <;> simp
        · rcases h.rateLimitReset with _ | u
          · simp
          · rcases u with ts | t2 | _ <;> simp

/-- Claim C2, amended: on a 429 response, backoffUntil is set by the first
matching rule in order (Retry-After integer seconds, Retry-After HTTP date,
X-RateLimit-Reset, RateLimit-Reset, default now + 60s), except that the
informational-header scan that follows in the same observation overwrites it
with the X-RateLimit-Reset instant whenever X-RateLimit-Remaining parses to 0
and X-RateLimit-Reset parses as an integer. -/
theorem observeResponse_429_priority_with_overwrite (now : ℚ) (h : Headers)
    (a : AdaptiveRateLimiter) :
    (a.ObserveResponse now 429 h).backoffUntil
      = (exhaustionOverwrite h).getD (claimPriorityBackoff429 now h) := by
  simp [AdaptiveRateLimiter.ObserveResponse, parseRateLimitHeaders_backoff,
    handle429_backoff]

/-- Claim C2 counterexample: a 429 response carrying Retry-After 5,
X-RateLimit-Remaining 0 and X-RateLimit-Reset 100, observed at time 0, ends
with backoffUntil 100 — not the value 0 + 5 chosen by the first matching
rule — so a header scanned later in the same observation does change the
value chosen by an earlier rule. -/
theorem observeResponse_429_late_header_overwrites :
    (AdaptiveRateLimiter.ObserveResponse ⟨0, 0⟩ 0 429
        { Headers.empty with
            retryAfter := some (.asInt 5)
            xRateLimitRemaining := some (.asInt 0)
            xRateLimitReset := some (.asInt 100) }).backoffUntil = 100 ∧
    claimPriorityBackoff429 0
        { Headers.empty with
            retryAfter := some (.asInt 5)
            xRateLimitRemaining := some (.asInt 0)
            xRateLimitReset := some (.asInt 100) } = 5 ∧
    (100 : ℚ) ≠ 5 := by
  refine ⟨by decide, by norm_num [claimPriorityBackoff429, Headers.empty], by norm_num⟩

/-- Claim C7: with the retry-on-5xx strategy and maxRetries 2 against a
transport that answers 500, 500, 200, DoJSON performs exactly 3 sends and
returns the 200 response with no error. -/
theorem doJSON_retryOn5xx_three_sends :
    DoJSON (fun i => if i < 2 then .resp 500 else .resp 200) RetryOn500x 2
      = (3, .success 200) := by decide

/-- Claim C9: in every state where the current time is before backoffUntil,
Allow returns false without invoking the base limiter (for every base limiter
the state comes back untouched), and Wait either returns the context error
when the context ends strictly before the backoff deadline (base untouched)
or invokes the base limiter exactly at the backoff deadline. -/
theorem adaptive_backoff_dominates {σ : Type}
    (baseAllow : ℚ → σ → Bool × σ) (baseWait : ℚ → σ → WaitOutcome × ℚ × σ)
    (a : AdaptiveRateLimiter) (now : ℚ) (bs : σ)
    (hb : now < a.backoffUntil) :
    a.Allow baseAllow now bs = (false, bs) ∧
    (∀ d, d < a.backoffUntil →
      a.Wait baseWait (some d) now bs = (.ctxErr, max now d, bs)) ∧
    (a.Wait baseWait none now bs = baseWait a.backoffUntil bs) ∧
    (∀ d, a.backoffUntil ≤ d →
      a.Wait baseWait (some d) now bs = baseWait a.backoffUntil bs) := by
  refine ⟨?_, ?_, ?_, ?_⟩
  · simp [AdaptiveRateLimiter.Allow, hb]
  · intro d hd
    simp [AdaptiveRateLimiter.Wait, hb, hd]
  · simp [AdaptiveRateLimiter.Wait, hb]
  · intro d hd
    simp [AdaptiveRateLimiter.Wait, hb, not_lt.mpr hd]

/-- Witness for claim C9 at a concrete backoff state and counter base. -/
theorem adaptive_backoff_dominates_witness :
    (0 : ℚ) < 10 ∧
    (AdaptiveRateLimiter.Allow ⟨10, 0⟩ (fun _ n => (true, n + 1)) 0 (0 : ℕ)
        = (false, 0) ∧
      (∀ d, d < (10 : ℚ) →
        AdaptiveRateLimiter.Wait ⟨10, 0⟩ (fun _ n => (.ok, 0, n + 1)) (some d) 0 (0 : ℕ)
          = (.ctxErr, max 0 d, 0)) ∧
      (AdaptiveRateLimiter.Wait ⟨10, 0⟩ (fun _ n => (.ok, 0, n + 1)) none 0 (0 : ℕ)
          = (.ok, 0, 1)) ∧
      (∀ d, (10 : ℚ) ≤ d →
        AdaptiveRateLimiter.Wait ⟨10, 0⟩ (fun _ n => (.ok, 0, n + 1)) (some d) 0 (0 : ℕ)
          = (.ok, 0, 1))) := by
  refine ⟨by norm_num, ?_⟩
  have h := @adaptive_backoff_dominates ℕ (fun _ n => (true, n + 1))
    (fun _ n => (.ok, 0, n + 1)) ⟨10, 0⟩ 0 0 (by norm_num)
  exact h

/-- Claim C1 counterexample: with Error behavior, no active backoff and a
base limiter that denies, the adaptive probe denies and Apply returns the
rate-limit-exceeded error, yet the base limiter was invoked once (the
invocation counter moved from 0 to 1) — contradicting the claim that a denied
probe means the base limiter was not invoked at all. -/
theorem apply_error_denied_probe_invoked_base :
    @rateLimitStrategy.ApplyAdaptiveClient ℕ
        (fun _ n => (false, n + 1)) (fun _ n => (.ok, 0, n)) .error
        ⟨0, 0⟩ none 0 0 = (.rateLimitExceeded, 0, 1) ∧
    (1 : ℕ) ≠ 0 := by
  refine ⟨by simp [rateLimitStrategy.ApplyAdaptiveClient, AdaptiveRateLimiter.Allow], by norm_num⟩

/-- Claim C1, amended: with Error behavior and adaptive enabled, Apply probes
the adaptive Allow first; if it denies, Apply returns the rate-limit-exceeded
error without the second (scoped) probe — when the denial is due to an active
backoff the base limiter is untouched, and when it came from the base limiter
the base was probed exactly once; if the probe admits, Apply probes the
scoped limiter (the same adaptive instance, reaching the base limiter a
second time) and returns the same error if that probe denies, nil if it
admits. -/
theorem apply_error_adaptive_fastfail {σ : Type}
    (baseAllow : ℚ → σ → Bool × σ) (baseWait : ℚ → σ → WaitOutcome × ℚ × σ)
    (a : AdaptiveRateLimiter) (cancelAt : Option ℚ) (now : ℚ) (bs : σ) :
    (now < a.backoffUntil →
      rateLimitStrategy.ApplyAdaptiveClient baseAllow baseWait .error a cancelAt now bs
        = (.rateLimitExceeded, now, bs)) ∧
    (a.backoffUntil ≤ now → (baseAllow now bs).1 = false →
      rateLimitStrategy.ApplyAdaptiveClient baseAllow baseWait .error a cancelAt now bs
        = (.rateLimitExceeded, now, (baseAllow now bs).2)) ∧
    (a.backoffUntil ≤ now → (baseAllow now bs).1 = true →
      rateLimitStrategy.ApplyAdaptiveClient baseAllow baseWait .error a cancelAt now bs
        = (if (baseAllow now (baseAllow now bs).2).1
           then (.ok, now, (baseAllow now (baseAllow now bs).2).2)
           else (.rateLimitExceeded, now, (baseAllow now (baseAllow now bs).2).2))) := by
  refine ⟨?_, ?_, ?_⟩
  · intro hb
    simp [rateLimitStrategy.ApplyAdaptiveClient, AdaptiveRateLimiter.Allow, hb]
  · intro hb h1
    simp [rateLimitStrategy.ApplyAdaptiveClient, AdaptiveRateLimiter.Allow,
      not_lt.mpr hb, h1]
  · intro hb h1
    cases hb2 : (baseAllow now (baseAllow now bs).2).1 <;>
      simp [rateLimitStrategy.ApplyAdaptiveClient, AdaptiveRateLimiter.Allow,
        not_lt.mpr hb, h1, hb2]

/-- Witness for claim C1 at a concrete in-backoff state. -/
theorem apply_error_adaptive_fastfail_witness :
    ((0 : ℚ) < 10) ∧
    @rateLimitStrategy.ApplyAdaptiveClient ℕ
        (fun _ n => (true, n + 1)) (fun _ n => (.ok, 0, n)) .error
        ⟨10, 0⟩ none 0 7 = (.rateLimitExceeded, 0, 7) :=
  ⟨by norm_num,
    (@apply_error_adaptive_fastfail ℕ (fun _ n => (true, n + 1))
        (fun _ n => (.ok, 0, n)) ⟨10, 0⟩ none 0 7).1 (by norm_num)⟩

theorem refill_self (s : TokenBucketRateLimiter) (now : ℚ)
    (hfresh : s.lastRefill = now) (hcap : s.tokens ≤ (s.burst : ℚ)) :
    s.refill now = s := by
  subst hfresh
  simp [TokenBucketRateLimiter.refill, hcap]

theorem tbAllow_fresh (s : TokenBucketRateLimiter) (now : ℚ)
    (hfresh : s.lastRefill = now) (hcap : s.tokens ≤ (s.burst : ℚ))
    (h1 : 1 ≤ s.tokens) :
    s.Allow now = (true, { s with tokens := s.tokens - 1 }) := by
  simp [TokenBucketRateLimiter.Allow, refill_self s now hfresh hcap, h1]

theorem tbWait_fresh (s : TokenBucketRateLimiter) (now : ℚ)
    (hfresh : s.lastRefill = now) (hcap : s.tokens ≤ (s.burst : ℚ))
    (h1 : 1 ≤ s.tokens) :
    s.Wait none now = (.ok, now, { s with tokens := s.tokens - 1 }) := by
  simp [TokenBucketRateLimiter.Wait, ctxDoneAt, refill_self s now hfresh hcap, h1]

/-- Claim C3: with client scope, adaptive enabled and no active backoff, a
successful Apply consumes two tokens from the base token bucket in Error
behavior (one per adaptive probe, since the scoped limiter wraps the same
adaptive instance) and likewise two in Wait behavior (one by the initial
Allow probe that runs before the behavior switch, one by Wait). -/
theorem apply_adaptive_client_two_tokens
    (a : AdaptiveRateLimiter) (s : TokenBucketRateLimiter) (now : ℚ)
    (hb : a.backoffUntil ≤ now) (hfresh : s.lastRefill = now)
    (hcap : s.tokens ≤ (s.burst : ℚ)) (h2 : 2 ≤ s.tokens) :
    rateLimitStrategy.ApplyAdaptiveClient tbAllow
        (fun t bs => bs.Wait none t) .error a none now s
      = (.ok, now, { s with tokens := s.tokens - 2 }) ∧
    rateLimitStrategy.ApplyAdaptiveClient tbAllow
        (fun t bs => bs.Wait none t) .wait a none now s
      = (.ok, now, { s with tokens := s.tokens - 2 }) := by
  have e1 : s.Allow now = (true, { s with tokens := s.tokens - 1 }) :=
    tbAllow_fresh s now hfresh hcap (by linarith)
  have e2 : ({ s with tokens := s.tokens - 1 } : TokenBucketRateLimiter).Allow now
      = (true, { s with tokens := s.tokens - 1 - 1 }) :=
    tbAllow_fresh _ now hfresh (by simp; linarith) (by simp; linarith)
  have e3 : ({ s with tokens := s.tokens - 1 } : TokenBucketRateLimiter).Wait none now
      = (.ok, now, { s with tokens := s.tokens - 1 - 1 }) :=
    tbWait_fresh _ now hfresh (by simp; linarith) (by simp; linarith)
  have h21 : s.tokens - 1 - 1 = s.tokens - 2 := by ring
  constructor
  · simp [rateLimitStrategy.ApplyAdaptiveClient, AdaptiveRateLimiter.Allow,
      not_lt.mpr hb, tbAllow, e1, e2, h21]
  · simp [rateLimitStrategy.ApplyAdaptiveClient, AdaptiveRateLimiter.Allow,
      AdaptiveRateLimiter.Wait, not_lt.mpr hb, tbAllow, e1, e3, h21]

/-- Witness for claim C3 at a concrete bucket of 5 tokens. -/
theorem apply_adaptive_client_two_tokens_witness :
    ((0 : ℚ) ≤ 0 ∧ (0 : ℚ) = 0 ∧ (5 : ℚ) ≤ 5 ∧ (2 : ℚ) ≤ 5) ∧
    rateLimitStrategy.ApplyAdaptiveClient tbAllow
        (fun t bs => bs.Wait none t) .error ⟨0, 0⟩ none 0 ⟨1, 5, 5, 0⟩
      = (.ok, 0, ⟨1, 5, 3, 0⟩) ∧
    rateLimitStrategy.ApplyAdaptiveClient tbAllow
        (fun t bs => bs.Wait none t) .wait ⟨0, 0⟩ none 0 ⟨1, 5, 5, 0⟩
      = (.ok, 0, ⟨1, 5, 3, 0⟩) := by
  refine ⟨⟨le_refl 0, rfl, le_refl 5, by norm_num⟩, ?_⟩
  have h := apply_adaptive_client_two_tokens ⟨0, 0⟩ ⟨1, 5, 5, 0⟩ 0
    (le_refl 0) rfl (by norm_num) (by norm_num)
  convert h using 3 <;> norm_num

theorem allowSeq_append {σ : Type} (allow : ℚ → σ → Bool × σ)
    (xs ys : List ℚ) (s : σ) :
    RateLimiter.AllowSeq allow (xs ++ ys) s
      = ((RateLimiter.AllowSeq allow xs s).1
            ++ (RateLimiter.AllowSeq allow ys (RateLimiter.AllowSeq allow xs s).2).1,
         (RateLimiter.AllowSeq allow ys (RateLimiter.AllowSeq allow xs s).2).2) := by
  induction xs generalizing s with
  | nil => simp [RateLimiter.AllowSeq]
  | cons t ts ih => simp [RateLimiter.AllowSeq, ih]

theorem tbAllow_deny_fresh (s : TokenBucketRateLimiter) (now : ℚ)
    (hfresh : s.lastRefill = now) (hcap : s.tokens ≤ (s.burst : ℚ))
    (h1 : s.tokens < 1) :
    s.Allow now = (false, s) := by
  simp [TokenBucketRateLimiter.Allow, refill_self s now hfresh hcap, not_le.mpr h1]

theorem tb_allowSeq_replicate (k : ℕ) (s : TokenBucketRateLimiter) (t : ℚ)
    (hfresh : s.lastRefill = t) (hcap : s.tokens ≤ (s.burst : ℚ))
    (hk : (k : ℚ) ≤ s.tokens) :
    RateLimiter.AllowSeq tbAllow (List.replicate k t) s
      = (List.replicate k true, { s with tokens := s.tokens - k }) := by
  induction k generalizing s with
  | zero => simp [RateLimiter.AllowSeq]
  | succ k ih =>
    have hk1 : (k : ℚ) + 1 ≤ s.tokens := by push_cast at hk; linarith
    have e1 : s.Allow t = (true, { s with tokens := s.tokens - 1 }) :=
      tbAllow_fresh s t hfresh hcap (by have hknn : (0 : ℚ) ≤ (k : ℚ) := Nat.cast_nonneg k; linarith)
    rw [List.replicate_succ]
    simp only [RateLimiter.AllowSeq, tbAllow, e1]
    rw [ih { s with tokens := s.tokens - 1 } hfresh (by simp; linarith)
      (by simp; linarith)]
    simp only [Prod.mk.injEq]
    constructor
    · simp [List.replicate_succ]
    · simp only [TokenBucketRateLimiter.mk.injEq]
      refine ⟨trivial, trivial, ?_, trivial⟩
      push_cast
      ring

/-- Claim C6, amended to require burst at least 1: a token bucket with burst
B ≥ 1 and rate R > 0 starting full admits B consecutive calls at one instant,
denies the (B+1)-th, admits exactly one more after exactly 1/R seconds have
elapsed, and denies the call after that. -/
theorem tokenBucket_burst_cycle (B : ℕ) (R t0 : ℚ) (hB : 1 ≤ B) (hR : 0 < R) :
    (RateLimiter.AllowSeq tbAllow
        (List.replicate B t0 ++ [t0, t0 + 1 / R, t0 + 1 / R])
        (NewTokenBucketRateLimiter R B t0)).1
      = List.replicate B true ++ [false, true, false] := by
  have hBQ : (1 : ℚ) ≤ (B : ℚ) := by exact_mod_cast hB
  have h0 := tb_allowSeq_replicate B (NewTokenBucketRateLimiter R B t0) t0 rfl
    (by simp [NewTokenBucketRateLimiter]) (by simp [NewTokenBucketRateLimiter])
  have e1 : (⟨R, B, (B : ℚ) - B, t0⟩ : TokenBucketRateLimiter).Allow t0
      = (false, ⟨R, B, (B : ℚ) - B, t0⟩) :=
    tbAllow_deny_fresh _ t0 rfl (by simp) (by simp)
  have harith : ((B : ℚ) - B) + ((t0 + 1 / R) - t0) * R = 1 := by
    field_simp
    ring
  have e2 : (⟨R, B, (B : ℚ) - B, t0⟩ : TokenBucketRateLimiter).Allow (t0 + 1 / R)
      = (true, ⟨R, B, 0, t0 + 1 / R⟩) := by
    simp only [TokenBucketRateLimiter.Allow, TokenBucketRateLimiter.refill, harith]
    rw [min_eq_right hBQ]
    norm_num
  have e3 : (⟨R, B, 0, t0 + 1 / R⟩ : TokenBucketRateLimiter).Allow (t0 + 1 / R)
      = (false, ⟨R, B, 0, t0 + 1 / R⟩) :=
    tbAllow_deny_fresh _ _ rfl (by simp) (by norm_num)
  rw [allowSeq_append, h0]
  simp only [NewTokenBucketRateLimiter]
  simp only [RateLimiter.AllowSeq, tbAllow, e1, e2, e3]

/-- Claim C6 counterexample: with burst 0 and rate 1, the call made
1/R = 1 second after start is still denied (the refill is capped at the
burst of 0), where the claim promises exactly one success for every burst. -/
theorem tokenBucket_burst_zero_refill_denies :
    (RateLimiter.AllowSeq tbAllow [0, 1] (NewTokenBucketRateLimiter 1 0 0)).1
      = [false, false] := by
  norm_num [RateLimiter.AllowSeq, tbAllow, NewTokenBucketRateLimiter,
    TokenBucketRateLimiter.Allow, TokenBucketRateLimiter.refill]

/-- Witness for claim C6 at burst 1, rate 1. -/
theorem tokenBucket_burst_cycle_witness :
    (1 ≤ 1 ∧ (0 : ℚ) < 1) ∧
    (RateLimiter.AllowSeq tbAllow
        (List.replicate 1 (0 : ℚ) ++ [0, 0 + 1 / 1, 0 + 1 / 1])
        (NewTokenBucketRateLimiter 1 1 0)).1
      = List.replicate 1 true ++ [false, true, false] :=
  ⟨⟨le_refl 1, by norm_num⟩, tokenBucket_burst_cycle 1 1 0 (le_refl 1) (by norm_num)⟩

theorem fw_noReset (s : FixedWindowRateLimiter) (now : ℚ)
    (h : now - s.windowStart < s.window) :
    s.maybeResetWindow now = s := by
  unfold FixedWindowRateLimiter.maybeResetWindow
  rw [if_neg (not_le.mpr h)]

theorem fw_reset (s : FixedWindowRateLimiter) (now : ℚ)
    (h : s.window ≤ now - s.windowStart) :
    s.maybeResetWindow now = { s with count := 0, windowStart := now } := by
  unfold FixedWindowRateLimiter.maybeResetWindow
  rw [if_pos h]

theorem fw_allow_admit (s : FixedWindowRateLimiter) (t : ℚ)
    (hin : t - s.windowStart < s.window) (hroom : (s.count : ℤ) < s.limit) :
    s.Allow t = (true, { s with count := s.count + 1 }) := by
  simp [FixedWindowRateLimiter.Allow, fw_noReset s t hin, hroom]

theorem fw_allow_deny (s : FixedWindowRateLimiter) (t : ℚ)
    (hin : t - s.windowStart < s.window) (hfull : s.limit ≤ (s.count : ℤ)) :
    s.Allow t = (false, s) := by
  simp [FixedWindowRateLimiter.Allow, fw_noReset s t hin, not_lt.mpr hfull]

theorem fw_allow_maybeReset (s : FixedWindowRateLimiter) (t : ℚ)
    (hW : 0 < s.window) :
    s.Allow t = (s.maybeResetWindow t).Allow t := by
  unfold FixedWindowRateLimiter.Allow
  by_cases h : s.window ≤ t - s.windowStart
  · rw [fw_reset s t h]
    rw [fw_noReset _ t (by simp [hW])]
  · simp only [fw_noReset s t (not_le.mp h)]

theorem fw_allowSeq_head_reset (t : ℚ) (ts : List ℚ) (s : FixedWindowRateLimiter)
    (hW : 0 < s.window) :
    RateLimiter.AllowSeq fwAllow (t :: ts) s
      = RateLimiter.AllowSeq fwAllow (t :: ts) (s.maybeResetWindow t) := by
  simp only [RateLimiter.AllowSeq, fwAllow]
  rw [fw_allow_maybeReset s t hW]

theorem fw_allowSeq_replicate (k : ℕ) (s : FixedWindowRateLimiter) (t : ℚ)
    (hin : t - s.windowStart < s.window) (hk : (s.count : ℤ) + k ≤ s.limit) :
    RateLimiter.AllowSeq fwAllow (List.replicate k t) s
      = (List.replicate k true, { s with count := s.count + k }) := by
  induction k generalizing s with
  | zero => simp [RateLimiter.AllowSeq]
  | succ k ih =>
    have hroom : (s.count : ℤ) < s.limit := by push_cast at hk; linarith
    have e1 := fw_allow_admit s t hin hroom
    rw [List.replicate_succ]
    simp only [RateLimiter.AllowSeq, fwAllow, e1]
    rw [ih { s with count := s.count + 1 } (by simpa using hin)
      (by show ((s.count + 1 : ℕ) : ℤ) + (k : ℤ) ≤ s.limit; push_cast at hk ⊢; omega)]
    simp only [Prod.mk.injEq]
    constructor
    · simp [List.replicate_succ]
    · simp only [FixedWindowRateLimiter.mk.injEq]
      refine ⟨trivial, trivial, trivial, ?_⟩
      omega

theorem fw_allowSeq_bound (ts : List ℚ) (s : FixedWindowRateLimiter)
    (hin : ∀ t ∈ ts, t - s.windowStart < s.window)
    (hcount : (s.count : ℤ) ≤ s.limit) :
    ((RateLimiter.AllowSeq fwAllow ts s).1.count true : ℤ) ≤ s.limit - s.count := by
  induction ts generalizing s with
  | nil => simp [RateLimiter.AllowSeq]; linarith
  | cons t ts ih =>
    have hhead : t - s.windowStart < s.window := hin t (by simp)
    have htail : ∀ u ∈ ts, u - s.windowStart < s.window := fun u hu => hin u (by simp [hu])
    by_cases hroom : (s.count : ℤ) < s.limit
    · have e1 := fw_allow_admit s t hhead hroom
      simp only [RateLimiter.AllowSeq, fwAllow, e1]
      have h2 := ih { s with count := s.count + 1 } (by simpa using htail)
        (by simp; omega)
      simp only at h2
      simp [List.count_cons]
      push_cast at h2 ⊢
      omega
    · have e1 := fw_allow_deny s t hhead (not_lt.mp hroom)
      simp only [RateLimiter.AllowSeq, fwAllow, e1]
      have h2 := ih s htail hcount
      simp [List.count_cons]
      push_cast at h2 ⊢
      omega

theorem fw_new_eq (L : ℤ) (W t0 : ℚ) (hL : 0 ≤ L) (hW : 0 < W) :
    NewFixedWindowRateLimiter L W t0 = ⟨L, W, t0, 0⟩ := by
  unfold NewFixedWindowRateLimiter
  rw [if_neg (not_lt.mpr hL), if_neg (not_le.mpr hW)]

theorem fw_fresh_cycle (L : ℤ) (W t0 : ℚ) (hL : 0 ≤ L) (hW : 0 < W) :
    (RateLimiter.AllowSeq fwAllow
        (List.replicate (L.toNat + 1) t0 ++ List.replicate L.toNat (t0 + W))
        (NewFixedWindowRateLimiter L W t0)).1
      = List.replicate L.toNat true ++ false :: List.replicate L.toNat true := by
  have hLt : ((L.toNat : ℤ)) = L := Int.toNat_of_nonneg hL
  rw [fw_new_eq L W t0 hL hW]
  have hrep1 := fw_allowSeq_replicate L.toNat ⟨L, W, t0, 0⟩ t0
    (by simp [hW]) (by simp [hLt])
  have hdeny : (⟨L, W, t0, L.toNat⟩ : FixedWindowRateLimiter).Allow t0
      = (false, ⟨L, W, t0, L.toNat⟩) :=
    fw_allow_deny _ t0 (by simp [hW]) (by simp [hLt])
  rw [List.replicate_succ' L.toNat t0]
  rw [List.append_assoc]
  rw [allowSeq_append, hrep1]
  simp only [List.singleton_append, RateLimiter.AllowSeq, fwAllow, zero_add, hdeny]
  cases hk : L.toNat with
  | zero =>
    simp only [hk, List.replicate]
    simp [RateLimiter.AllowSeq]
  | succ n =>
    rw [List.replicate_succ (t0 + W) n]
    simp only [List.append_eq, List.nil_append]
    rw [fw_allowSeq_head_reset (t0 + W) _ ⟨L, W, t0, n + 1⟩ (by simpa using hW)]
    have hres : (⟨L, W, t0, n + 1⟩ : FixedWindowRateLimiter).maybeResetWindow (t0 + W)
        = ⟨L, W, t0 + W, 0⟩ := by
      rw [fw_reset _ _ (by simp)]
    rw [hres, ← List.replicate_succ (t0 + W) n]
    rw [fw_allowSeq_replicate (n + 1) ⟨L, W, t0 + W, 0⟩ (t0 + W)
      (by simp [hW]) (by rw [← hLt, hk]; push_cast; omega)]

/-- Claim C5: maybeResetWindow resets the count to 0 exactly when the elapsed
time since windowStart is at least the window length; between two resets at
most limit − count calls succeed; and a fresh limiter with limit L ≥ 0 and
window W > 0 admits L calls within the window, denies the (L+1)-th, and
admits L more once W has elapsed. -/
theorem fixedWindow_limit_window_cycle (L : ℤ) (W t0 : ℚ) (hL : 0 ≤ L) (hW : 0 < W) :
    (∀ (now : ℚ) (s : FixedWindowRateLimiter),
      (s.window ≤ now - s.windowStart →
        s.maybeResetWindow now = { s with count := 0, windowStart := now }) ∧
      (now - s.windowStart < s.window → s.maybeResetWindow now = s)) ∧
    (∀ (ts : List ℚ) (s : FixedWindowRateLimiter),
      (∀ t ∈ ts, t - s.windowStart < s.window) → (s.count : ℤ) ≤ s.limit →
      ((RateLimiter.AllowSeq fwAllow ts s).1.count true : ℤ) ≤ s.limit - s.count) ∧
    (RateLimiter.AllowSeq fwAllow
        (List.replicate (L.toNat + 1) t0 ++ List.replicate L.toNat (t0 + W))
        (NewFixedWindowRateLimiter L W t0)).1
      = List.replicate L.toNat true ++ false :: List.replicate L.toNat true :=
  ⟨fun now s => ⟨fw_reset s now, fw_noReset s now⟩,
   fun ts s h1 h2 => fw_allowSeq_bound ts s h1 h2,
   fw_fresh_cycle L W t0 hL hW⟩

/-- Witness for claim C5 at limit 2, window 1. -/
theorem fixedWindow_limit_window_cycle_witness :
    ((0 : ℤ) ≤ 2 ∧ (0 : ℚ) < 1) ∧
    ((∀ (now : ℚ) (s : FixedWindowRateLimiter),
      (s.window ≤ now - s.windowStart →
        s.maybeResetWindow now = { s with count := 0, windowStart := now }) ∧
      (now - s.windowStart < s.window → s.maybeResetWindow now = s)) ∧
    (∀ (ts : List ℚ) (s : FixedWindowRateLimiter),
      (∀ t ∈ ts, t - s.windowStart < s.window) → (s.count : ℤ) ≤ s.limit →
      ((RateLimiter.AllowSeq fwAllow ts s).1.count true : ℤ) ≤ s.limit - s.count) ∧
    (RateLimiter.AllowSeq fwAllow
        (List.replicate ((2 : ℤ).toNat + 1) (0 : ℚ)
          ++ List.replicate (2 : ℤ).toNat ((0 : ℚ) + 1))
        (NewFixedWindowRateLimiter 2 1 0)).1
      = List.replicate (2 : ℤ).toNat true
          ++ false :: List.replicate (2 : ℤ).toNat true) :=
  ⟨⟨by norm_num, by norm_num⟩,
   fixedWindow_limit_window_cycle 2 1 0 (by norm_num) (by norm_num)⟩

theorem lookup_updateHost_ne {σ : Type} (m : List (String × σ))
    (host other : String) (s : σ) (h : host ≠ other) :
    lookupHost (updateHost m host s) other = lookupHost m other := by
  induction m with
  | nil => simp [updateHost, lookupHost, h]
  | cons e rest ih =>
    by_cases he : e.1 = host
    · simp [updateHost, lookupHost, he, h]
    · simp only [updateHost]
      rw [if_neg ?_]
      · by_cases hB : e.1 = other
        · simp [lookupHost, hB]
        · simp only [lookupHost, List.find?] at ih ⊢
          simp [hB, ih]
      · cases e
        simpa using he

theorem lookup_updateHost_same {σ : Type} (m : List (String × σ))
    (host : String) (s : σ) :
    lookupHost (updateHost m host s) host = some s := by
  induction m with
  | nil => simp [updateHost, lookupHost]
  | cons e rest ih =>
    by_cases he : e.1 = host
    · simp [updateHost, lookupHost, he]
    · simp only [updateHost]
      rw [if_neg ?_]
      · simp only [lookupHost, List.find?] at ih ⊢
        simp [he, ih]
      · cases e
        simpa using he

theorem perHost_run_frame {σ : Type} (σ0 : σ) (A B : String) (hAB : A ≠ B)
    (fs : List (σ → σ)) :
    ∀ m, lookupHost (PerHostRateLimiter.run σ0 A fs m) B = lookupHost m B := by
  induction fs with
  | nil => intro m; simp [PerHostRateLimiter.run]
  | cons f fs ih =>
    intro m
    simp only [PerHostRateLimiter.run, PerHostRateLimiter.step]
    rw [ih, lookup_updateHost_ne _ _ _ _ hAB]

theorem perHost_allowSeq_proj {σ : Type} (allow : ℚ → σ → Bool × σ) (σ0 : σ)
    (host : String) (ts : List ℚ) :
    ∀ m, (PerHostRateLimiter.AllowSeq allow σ0 host ts m).1
      = (RateLimiter.AllowSeq allow ts ((lookupHost m host).getD σ0)).1 := by
  induction ts with
  | nil => intro m; simp [PerHostRateLimiter.AllowSeq, RateLimiter.AllowSeq]
  | cons t ts ih =>
    intro m
    simp only [PerHostRateLimiter.AllowSeq, PerHostRateLimiter.Allow,
      RateLimiter.AllowSeq, List.cons.injEq]
    refine ⟨trivial, ?_⟩
    rw [ih, lookup_updateHost_same]
    simp

/-- Claim C8: per-host limiters are isolated — every sequence of operations
against host A leaves the cached limiter state of a distinct host B
unchanged, and after any amount of activity on host A (including exhausting
its budget), host B still admits its full budget from a limiter built with
the same factory parameters. -/
theorem perHost_isolation (A B : String) (hAB : A ≠ B) (L : ℤ) (W t0 : ℚ)
    (hL : 0 ≤ L) (hW : 0 < W) :
    (∀ (σ : Type) (σ0 : σ) (fs : List (σ → σ)) (m : List (String × σ)),
        lookupHost (PerHostRateLimiter.run σ0 A fs m) B = lookupHost m B) ∧
    (∀ fs : List (FixedWindowRateLimiter → FixedWindowRateLimiter),
        (PerHostRateLimiter.AllowSeq fwAllow (NewFixedWindowRateLimiter L W t0) B
            (List.replicate L.toNat t0)
            (PerHostRateLimiter.run (NewFixedWindowRateLimiter L W t0) A fs [])).1
          = List.replicate L.toNat true) := by
  constructor
  · intro σ σ0 fs m
    exact perHost_run_frame σ0 A B hAB fs m
  · intro fs
    rw [perHost_allowSeq_proj, perHost_run_frame _ A B hAB fs]
    have hrep := fw_allowSeq_replicate L.toNat ⟨L, W, t0, 0⟩ t0
      (by simp [hW]) (by simp [Int.toNat_of_nonneg hL])
    have hnil : lookupHost ([] : List (String × FixedWindowRateLimiter)) B = none := rfl
    rw [hnil]
    simp only [Option.getD_none, fw_new_eq L W t0 hL hW]
    rw [hrep]

/-- Witness for claim C8 with two concrete hosts. -/
theorem perHost_isolation_witness :
    ("a" ≠ "b" ∧ (0 : ℤ) ≤ 1 ∧ (0 : ℚ) < 1) ∧
    ((∀ (σ : Type) (σ0 : σ) (fs : List (σ → σ)) (m : List (String × σ)),
        lookupHost (PerHostRateLimiter.run σ0 "a" fs m) "b" = lookupHost m "b") ∧
    (∀ fs : List (FixedWindowRateLimiter → FixedWindowRateLimiter),
        (PerHostRateLimiter.AllowSeq fwAllow (NewFixedWindowRateLimiter 1 1 0) "b"
            (List.replicate (1 : ℤ).toNat (0 : ℚ))
            (PerHostRateLimiter.run (NewFixedWindowRateLimiter 1 1 0) "a" fs [])).1
          = List.replicate (1 : ℤ).toNat true)) :=
  ⟨⟨by decide, by norm_num, by norm_num⟩,
   perHost_isolation "a" "b" (by decide) 1 1 0 (by norm_num) (by norm_num)⟩

/-- Claim C4 counterexample: the fixed-window Wait, called under an
already-canceled context while capacity is available, admits and returns nil
(incrementing the count) — the claim requires the context error and no
admission. -/
theorem fixedWindow_wait_canceled_admits :
    ctxDoneAt (some 0) 0 = true ∧
    FixedWindowRateLimiter.Wait (some 0) 1 0 ⟨1, 1, 0, 0⟩
      = some (.ok, 0, ⟨1, 1, 0, 1⟩) := by
  constructor
  · simp [ctxDoneAt]
  · simp [FixedWindowRateLimiter.Wait, FixedWindowRateLimiter.maybeResetWindow]

/-- Claim C4, amended: the token-bucket Wait treats an already-canceled
context as denied, returning the context error without consuming a token,
while its Allow still admits when a token is available; the fixed-window Wait
checks the context only after finding no room — with capacity available it
admits and returns nil even under an already-canceled context, and only at
capacity does it return the context error without admitting. -/
theorem wait_canceled_context_amended :
    (∀ (s : TokenBucketRateLimiter) (cancelAt : Option ℚ) (now : ℚ),
        ctxDoneAt cancelAt now = true → s.Wait cancelAt now = (.ctxErr, now, s)) ∧
    (∀ (s : TokenBucketRateLimiter) (now : ℚ), s.lastRefill = now →
        s.tokens ≤ (s.burst : ℚ) → 1 ≤ s.tokens → (s.Allow now).1 = true) ∧
    (∀ (s : FixedWindowRateLimiter) (cancelAt : Option ℚ) (fuel : ℕ) (now : ℚ),
        now - s.windowStart < s.window → (s.count : ℤ) < s.limit →
        FixedWindowRateLimiter.Wait cancelAt (fuel + 1) now s
          = some (.ok, now, { s with count := s.count + 1 })) ∧
    (∀ (s : FixedWindowRateLimiter) (d : ℚ) (fuel : ℕ) (now : ℚ),
        now - s.windowStart < s.window → s.limit ≤ (s.count : ℤ) → d ≤ now →
        FixedWindowRateLimiter.Wait (some d) (fuel + 1) now s
          = some (.ctxErr, now, s)) := by
  refine ⟨?_, ?_, ?_, ?_⟩
  · intro s cancelAt now h
    simp [TokenBucketRateLimiter.Wait, h]
  · intro s now hfresh hcap h1
    simp [tbAllow_fresh s now hfresh hcap h1]
  · intro s cancelAt fuel now hin hroom
    simp [FixedWindowRateLimiter.Wait, fw_noReset s now hin, hroom]
  · intro s d fuel now hin hfull hd
    have hle : d ≤ now + max 0 (s.window - (now - s.windowStart)) :=
      le_trans hd (le_add_of_nonneg_right (le_max_left 0 _))
    simp [FixedWindowRateLimiter.Wait, fw_noReset s now hin, not_lt.mpr hfull,
      hle, max_eq_left hd]

/-- Witness for claim C4 at concrete limiter states. -/
theorem wait_canceled_context_amended_witness :
    (ctxDoneAt (some 0) 0 = true ∧ (1 : ℚ) ≤ 1 ∧ (0 : ℚ) - 0 < 1 ∧
      ((0 : ℕ) : ℤ) < 1 ∧ (1 : ℤ) ≤ ((1 : ℕ) : ℤ) ∧ (0 : ℚ) ≤ 0) ∧
    TokenBucketRateLimiter.Wait ⟨1, 1, 1, 0⟩ (some 0) 0 = (.ctxErr, 0, ⟨1, 1, 1, 0⟩) ∧
    ((⟨1, 1, 1, 0⟩ : TokenBucketRateLimiter).Allow 0).1 = true ∧
    FixedWindowRateLimiter.Wait (some 0) 1 0 ⟨1, 1, 0, 0⟩
      = some (.ok, 0, ⟨1, 1, 0, 1⟩) ∧
    FixedWindowRateLimiter.Wait (some 0) 1 0 ⟨1, 1, 0, 1⟩
      = some (.ctxErr, 0, ⟨1, 1, 0, 1⟩) := by
  refine ⟨⟨by simp [ctxDoneAt], by norm_num, by norm_num, by norm_num, by norm_num,
    le_refl 0⟩, ?_, ?_, ?_, ?_⟩
  · exact wait_canceled_context_amended.1 ⟨1, 1, 1, 0⟩ (some 0) 0 (by simp [ctxDoneAt])
  · exact wait_canceled_context_amended.2.1 ⟨1, 1, 1, 0⟩ 0 rfl (by norm_num) (by norm_num)
  · exact wait_canceled_context_amended.2.2.1 ⟨1, 1, 0, 0⟩ (some 0) 0 0
      (by norm_num) (by norm_num)
  · exact wait_canceled_context_amended.2.2.2 ⟨1, 1, 0, 1⟩ 0 0 0
      (by norm_num) (by norm_num) (le_refl 0)

theorem fw_reset_preserves (s : FixedWindowRateLimiter) (now : ℚ) :
    (s.maybeResetWindow now).limit = s.limit ∧
    (s.maybeResetWindow now).window = s.window := by
  unfold FixedWindowRateLimiter.maybeResetWindow
  split <;> simp

theorem fw_allow_limit0 (t : ℚ) (s : FixedWindowRateLimiter) (hlim : s.limit ≤ 0) :
    (s.Allow t).1 = false := by
  have hpres := (fw_reset_preserves s t).1
  have hno : ¬ (((s.maybeResetWindow t).count : ℤ) < (s.maybeResetWindow t).limit) := by
    intro h
    have h0 : (0 : ℤ) ≤ ((s.maybeResetWindow t).count : ℤ) := Int.natCast_nonneg _
    omega
  simp [FixedWindowRateLimiter.Allow, hno]

theorem fw_wait_limit0_no_admit (now : ℚ) (s : FixedWindowRateLimiter)
    (hlim : s.limit ≤ 0) :
    ¬ (((s.maybeResetWindow now).count : ℤ) < (s.maybeResetWindow now).limit) := by
  have hpres := (fw_reset_preserves s now).1
  intro h
  have h0 : (0 : ℤ) ≤ ((s.maybeResetWindow now).count : ℤ) := Int.natCast_nonneg _
  omega

theorem fw_wait_none_limit0 : ∀ (fuel : ℕ) (now : ℚ) (s : FixedWindowRateLimiter),
    s.limit ≤ 0 → FixedWindowRateLimiter.Wait none fuel now s = none := by
  intro fuel
  induction fuel with
  | zero => intro now s _; rfl
  | succ fuel ih =>
    intro now s hlim
    have hno := fw_wait_limit0_no_admit now s hlim
    simp only [FixedWindowRateLimiter.Wait, hno, if_neg hno]
    exact ih _ _ (by rw [(fw_reset_preserves s now).1]; exact hlim)

theorem fw_wait_some_limit0_char (d : ℚ) :
    ∀ (fuel : ℕ) (now : ℚ) (s : FixedWindowRateLimiter), s.limit ≤ 0 → now ≤ d →
    ∀ r, FixedWindowRateLimiter.Wait (some d) fuel now s = some r →
      r.1 = WaitOutcome.ctxErr ∧ r.2.1 = d := by
  intro fuel
  induction fuel with
  | zero => intro now s _ _ r hr; exact absurd hr (by simp [FixedWindowRateLimiter.Wait])
  | succ fuel ih =>
    intro now s hlim hd r hr
    have hno := fw_wait_limit0_no_admit now s hlim
    simp only [FixedWindowRateLimiter.Wait, if_neg hno] at hr
    by_cases hret : d ≤ now + max 0 ((s.maybeResetWindow now).window
        - (now - (s.maybeResetWindow now).windowStart))
    · rw [if_pos hret] at hr
      have : r = (.ctxErr, max now d, s.maybeResetWindow now) := by
        exact (Option.some_injective _ hr).symm
      rw [this]
      exact ⟨rfl, max_eq_right hd⟩
    · rw [if_neg hret] at hr
      have hlt : now + max 0 ((s.maybeResetWindow now).window
          - (now - (s.maybeResetWindow now).windowStart)) < d := not_le.mp hret
      exact ih _ _ (by rw [(fw_reset_preserves s now).1]; exact hlim)
        (le_of_lt hlt) r hr

theorem fw_wait_step (s : FixedWindowRateLimiter) (now : ℚ)
    (hW : 0 < s.window) (hstart : s.windowStart ≤ now) :
    (s.maybeResetWindow now).windowStart ≤ now ∧
    now + max 0 ((s.maybeResetWindow now).window
        - (now - (s.maybeResetWindow now).windowStart))
      = (s.maybeResetWindow now).windowStart + s.window := by
  by_cases h : s.window ≤ now - s.windowStart
  · rw [fw_reset s now h]
    refine ⟨le_refl now, ?_⟩
    simp [max_eq_right hW.le]
  · have hlt : now - s.windowStart < s.window := not_le.mp h
    rw [fw_noReset s now hlt]
    refine ⟨hstart, ?_⟩
    rw [max_eq_right (by linarith)]
    ring

theorem fw_wait_limit0_term (d : ℚ) :
    ∀ (k : ℕ) (now : ℚ) (s : FixedWindowRateLimiter),
    s.limit ≤ 0 → 0 < s.window → s.windowStart ≤ now →
    d ≤ (s.maybeResetWindow now).windowStart + s.window + k * s.window →
    (FixedWindowRateLimiter.Wait (some d) (k + 1) now s).isSome := by
  intro k
  induction k with
  | zero =>
    intro now s hlim hW hstart hk
    have hno := fw_wait_limit0_no_admit now s hlim
    have hstep := fw_wait_step s now hW hstart
    simp only [FixedWindowRateLimiter.Wait, if_neg hno]
    rw [hstep.2, if_pos (by push_cast at hk; linarith)]
    simp
  | succ k ih =>
    intro now s hlim hW hstart hk
    have hno := fw_wait_limit0_no_admit now s hlim
    have hstep := fw_wait_step s now hW hstart
    simp only [FixedWindowRateLimiter.Wait, if_neg hno]
    rw [hstep.2]
    by_cases hret : d ≤ (s.maybeResetWindow now).windowStart + s.window
    · rw [if_pos hret]
      simp
    · rw [if_neg hret]
      have hpres := fw_reset_preserves s now
      set s1 := s.maybeResetWindow now with hs1
      have happly := ih (s1.windowStart + s.window) s1
        (by rw [hpres.1]; exact hlim)
        (by rw [hpres.2]; exact hW)
        (by linarith)
      refine happly ?_
      have hreset2 : s1.maybeResetWindow (s1.windowStart + s.window)
          = { s1 with count := 0, windowStart := s1.windowStart + s.window } :=
        fw_reset _ _ (by rw [hpres.2]; linarith)
      rw [hreset2]
      have hproj : ({ s1 with count := 0, windowStart := s1.windowStart + s.window }
          : FixedWindowRateLimiter).windowStart = s1.windowStart + s.window := rfl
      rw [hproj]
      simp only [hpres.2]
      push_cast at hk ⊢
      linarith

theorem fw_new_limit_le (limit : ℤ) (w t0 : ℚ) (hlim : limit ≤ 0) :
    (NewFixedWindowRateLimiter limit w t0).limit ≤ 0 := by
  show (if limit < 0 then (0 : ℤ) else limit) ≤ 0
  split <;> omega

theorem fw_new_window_pos (limit : ℤ) (w t0 : ℚ) :
    0 < (NewFixedWindowRateLimiter limit w t0).window := by
  show 0 < (if w ≤ 0 then (1 : ℚ) / 1000000000 else w)
  by_cases h : w ≤ 0
  · simp only [if_pos h]
    norm_num
  · simp only [if_neg h]
    exact lt_of_not_le h

theorem fw_maybeReset_start_mono (s : FixedWindowRateLimiter) (now : ℚ)
    (h : s.windowStart ≤ now) :
    s.windowStart ≤ (s.maybeResetWindow now).windowStart := by
  unfold FixedWindowRateLimiter.maybeResetWindow
  split
  · exact h
  · exact le_refl _

/-- Claim C10: a fixed-window limiter constructed with limit ≤ 0 never
admits — Allow always returns false, Wait under a never-ending context never
returns, and Wait under a context ending at time d returns exactly the
context error at time d: every fuel that produces a return produces that
outcome, and some fuel does return. -/
theorem fixedWindow_limit0_behavior (limit : ℤ) (w t0 now d : ℚ)
    (hlim : limit ≤ 0) (hnow : t0 ≤ now) (hd : now ≤ d) :
    (∀ (t : ℚ) (s : FixedWindowRateLimiter), s.limit ≤ 0 → (s.Allow t).1 = false) ∧
    (∀ fuel, FixedWindowRateLimiter.Wait none fuel now
        (NewFixedWindowRateLimiter limit w t0) = none) ∧
    (∀ fuel r, FixedWindowRateLimiter.Wait (some d) fuel now
        (NewFixedWindowRateLimiter limit w t0) = some r →
        r.1 = WaitOutcome.ctxErr ∧ r.2.1 = d) ∧
    (∃ fuel s2, FixedWindowRateLimiter.Wait (some d) fuel now
        (NewFixedWindowRateLimiter limit w t0) = some (.ctxErr, d, s2)) := by
  have hslim := fw_new_limit_le limit w t0 hlim
  have hW := fw_new_window_pos limit w t0
  have hstart : (NewFixedWindowRateLimiter limit w t0).windowStart = t0 := by
    unfold NewFixedWindowRateLimiter
    rfl
  refine ⟨fun t s h => fw_allow_limit0 t s h,
    fun fuel => fw_wait_none_limit0 fuel now _ hslim,
    fun fuel r hr => fw_wait_some_limit0_char d fuel now _ hslim hd r hr, ?_⟩
  set s := NewFixedWindowRateLimiter limit w t0 with hs
  set k := ⌈(d - t0) / s.window⌉₊ with hkdef
  have hceil : (d - t0) / s.window ≤ (k : ℚ) := Nat.le_ceil _
  have hdk : d - t0 ≤ (k : ℚ) * s.window := (div_le_iff₀ hW).mp hceil
  have hstart1 : t0 ≤ (s.maybeResetWindow now).windowStart := by
    rw [← hstart]
    exact fw_maybeReset_start_mono s now (by rw [hstart]; exact hnow)
  have hk : d ≤ (s.maybeResetWindow now).windowStart + s.window + k * s.window := by
    linarith
  have hsome := fw_wait_limit0_term d k now s hslim hW (by rw [hstart]; exact hnow) hk
  obtain ⟨r, hr⟩ := Option.isSome_iff_exists.mp hsome
  obtain ⟨a, b, c⟩ := r
  have hchar := fw_wait_some_limit0_char d (k + 1) now s hslim hd _ hr
  simp only at hchar
  rw [hchar.1, hchar.2] at hr
  exact ⟨k + 1, c, hr⟩

/-- Witness for claim C10 at limit -1, window 1, cancellation at 2. -/
theorem fixedWindow_limit0_behavior_witness :
    ((-1 : ℤ) ≤ 0 ∧ (0 : ℚ) ≤ 0 ∧ (0 : ℚ) ≤ 2) ∧
    ((∀ (t : ℚ) (s : FixedWindowRateLimiter), s.limit ≤ 0 → (s.Allow t).1 = false) ∧
    (∀ fuel, FixedWindowRateLimiter.Wait none fuel 0
        (NewFixedWindowRateLimiter (-1) 1 0) = none) ∧
    (∀ fuel r, FixedWindowRateLimiter.Wait (some 2) fuel 0
        (NewFixedWindowRateLimiter (-1) 1 0) = some r →
        r.1 = WaitOutcome.ctxErr ∧ r.2.1 = 2) ∧
    (∃ fuel s2, FixedWindowRateLimiter.Wait (some 2) fuel 0
        (NewFixedWindowRateLimiter (-1) 1 0) = some (.ctxErr, 2, s2))) :=
  ⟨⟨by norm_num, le_refl 0, by norm_num⟩,
   fixedWindow_limit0_behavior (-1) 1 0 0 2 (by norm_num) (le_refl 0) (by norm_num)⟩
